import Mathlib

/-!
Shallow embedding of the goArcaneGitOps sync tool (main.go) in Lean 4.

The tool is a one-shot GitOps reconciler: it forces a local git checkout to
match the remote branch tip, detects which project directories saw manifest
changes, and converges a remote "Arcane" project inventory to the on-disk
projects (create / update+redeploy / no-op per project).

External effects (git subprocesses, HTTP calls, the filesystem) are modelled
as explicit oracle parameters: each definition below names the main.go lines
it embeds, and the oracles carry exactly the success/failure information and
payloads those external calls can produce.
-/

/-- Embeds `ArcaneProject` (main.go lines 38-49): one remote inventory entry. -/
structure ArcaneProject where
  id : String := ""
  name : String := ""
  status : String := ""
  statusReason : String := ""
  dirName : String := ""
  path : String := ""
  composeContent : String := ""
  envContent : String := ""
  createdAt : String := ""
  updatedAt : String := ""
deriving DecidableEq

/-- Embeds `GitStatus` (main.go lines 282-286): ahead/behind counts relative
to `origin/<branch>` and the dirty-working-tree flag.  `hasLocalChange`
models uncommitted modifications to tracked files, which `git reset --hard`
discards. -/
structure GitStatus where
  ahead : Nat
  behind : Nat
  hasLocalChange : Bool
deriving DecidableEq

/-- Success/failure oracle for the git subprocess calls issued by the
synchronizer branches (main.go lines 355-426).  Each field tells whether the
corresponding `runGitCommand` invocation succeeds. -/
structure GitOutcome where
  fetchBranchOk : Bool
  resetOriginOk : Bool
  resetHeadOk : Bool
  cleanOk : Bool
deriving DecidableEq

/-- Embeds the Git State Synchronizer (main.go lines 355-426).  Returns
`none` when the process would call `os.Exit(1)` (a fatal fetch or
hard-reset-to-remote failure), otherwise `some (finalState, changesOccurred)`.
The three branches mirror the source: diverged (ahead>0 and behind>0),
ahead-only, and a separate `if` for behind-only that tests the ORIGINAL
status, exactly as the code does.  `clean` failures (lines 373-375, 408-410)
and the behind-only pre-clean `reset --hard HEAD` failure (lines 404-406)
are only logged, so they never produce `none`; the pre-clean intermediate
state is always superseded by the final hard reset to the remote tip. -/
def gitSync (status : GitStatus) (o : GitOutcome) : Option (GitStatus × Bool) :=
  let phase1 : Option (GitStatus × Bool) :=
    if 0 < status.ahead ∧ 0 < status.behind then
      -- lines 359-377: diverged
      if o.fetchBranchOk then
        if o.resetOriginOk then some (⟨0, 0, false⟩, true) else none
      else none
    else if 0 < status.ahead then
      -- lines 378-393: ahead-only (not marked changed)
      if o.fetchBranchOk then
        if o.resetOriginOk then some (⟨0, 0, false⟩, false) else none
      else none
    else some (status, false)
  match phase1 with
  | none => none
  | some (cur, changed) =>
    -- lines 396-426: behind-only, condition on the original status
    if 0 < status.behind ∧ status.ahead = 0 then
      let _preClean :=
        if status.hasLocalChange then
          (if o.resetHeadOk then { cur with hasLocalChange := false } else cur)
        else cur
      if o.fetchBranchOk then
        if o.resetOriginOk then some (⟨0, 0, false⟩, true) else none
      else none
    else some (cur, changed)

/-! ## String and path helpers

Character-list implementations of the `strings` / `path/filepath` stdlib
calls the tool makes, kept structurally recursive so concrete inputs reduce
inside the kernel. -/

/-- Whitespace test used by `strings.TrimSpace` for the ASCII characters that
occur in git output. -/
def isSpaceChar (c : Char) : Bool :=
  c = ' ' || c = '\t' || c = '\n' || c = '\r'

/-- `strings.TrimSpace` on a character list. -/
def trimChars (cs : List Char) : List Char :=
  ((cs.dropWhile isSpaceChar).reverse.dropWhile isSpaceChar).reverse

/-- `strings.TrimSpace` on a string. -/
def trimString (s : String) : String :=
  String.mk (trimChars s.toList)

/-- `strings.Split s "\n"` on a character list: `splitLines "".toList = [[]]`
and each newline starts a new fragment, as in Go. -/
def splitLines : List Char → List (List Char)
  | [] => [[]]
  | c :: rest =>
    if c = '\n' then [] :: splitLines rest
    else
      match splitLines rest with
      | [] => [[c]]
      | l :: ls => (c :: l) :: ls

/-- Split a character list on `/` (used to model `path.Clean`). -/
def splitSlash : List Char → List (List Char)
  | [] => [[]]
  | c :: rest =>
    if c = '/' then [] :: splitSlash rest
    else
      match splitSlash rest with
      | [] => [[c]]
      | l :: ls => (c :: l) :: ls

/-- Stack-based element processing of Go `path.Clean`: drop empty and `.`
elements, let `..` pop a previous element (or survive when nothing can be
popped in a relative path), keep everything else.  The accumulated stack is
kept reversed. -/
def cleanElems (rooted : Bool) : List String → List String → List String
  | stack, [] => stack.reverse
  | stack, e :: rest =>
    if e = "" ∨ e = "." then cleanElems rooted stack rest
    else if e = ".." then
      match stack with
      | [] => if rooted then cleanElems rooted [] rest else cleanElems rooted [".."] rest
      | top :: tl =>
        if top = ".." then cleanElems rooted (".." :: top :: tl) rest
        else cleanElems rooted tl rest
    else cleanElems rooted (e :: stack) rest

/-- Join path elements with `/`. -/
def joinSlash : List String → List Char
  | [] => []
  | [e] => e.toList
  | e :: rest => e.toList ++ '/' :: joinSlash rest

/-- Go `path.Clean` (the slash-separated semantics `filepath` uses on the
tool's Linux target). -/
def pathClean (p : String) : String :=
  if p = "" then "." else
    let rooted := p.toList.head? = some '/'
    let elems := (splitSlash p.toList).map String.mk
    let cleaned := cleanElems rooted [] elems
    let body := joinSlash cleaned
    if rooted then String.mk ('/' :: body)
    else if body.isEmpty then "." else String.mk body

/-- Go `filepath.Base`: strip trailing slashes, then keep the last path
element; `""` gives `"."` and an all-slash path gives `"/"`. -/
def pathBase (p : String) : String :=
  if p = "" then "." else
    let revNoSlash := p.toList.reverse.dropWhile (fun c => c = '/')
    if revNoSlash.isEmpty then "/"
    else String.mk (revNoSlash.takeWhile (fun c => ¬ c = '/')).reverse

/-- Go `filepath.Dir`: everything up to (and including) the final slash,
then cleaned. -/
def pathDir (p : String) : String :=
  pathClean (String.mk (p.toList.reverse.dropWhile (fun c => ¬ c = '/')).reverse)

/-! ## Change-Set Detector -/

/-- The diff lines the detector iterates over: `strings.Split` of the trimmed
`git diff --name-only` output (main.go line 782). -/
def diffLines (out : String) : List String :=
  (splitLines (trimChars out.toList)).map String.mk

/-- One iteration of the changed-file loop (main.go lines 786-808): trim the
line, skip empties, keep only recognized manifest filenames, and record the
base name of the parent directory (map assignment modelled as first-seen
insertion into a duplicate-free list). -/
def detectStep (acc : List String) (fileRaw : String) : List String :=
  let file := trimString fileRaw
  if file = "" then acc
  else
    let filename := pathBase file
    if filename ≠ "compose.yaml" ∧ filename ≠ "compose.yml" ∧
        filename ≠ "docker-compose.yaml" ∧ filename ≠ "docker-compose.yml" then acc
    else
      let dir := pathDir file
      let projectName := pathBase dir
      if acc.contains projectName then acc else acc ++ [projectName]

/-- Embeds `detectChangedProjects` (main.go lines 766-811).  `diffOutput`
models the `git diff --name-only old new` subprocess: `none` is a failed
diff command (logged, empty result), `some out` its stdout. -/
def detectChangedProjects (oldCommit newCommit : String)
    (diffOutput : Option String) : List String :=
  if oldCommit = newCommit then []
  else
    match diffOutput with
    | none => []
    | some out => (diffLines out).foldl detectStep []

/-- The four recognized manifest filenames, in the fixed priority order of
`findComposeFile` (main.go line 647); `detectChangedProjects` keeps exactly
the diff paths whose base filename is one of these (line 796). -/
def manifestNames : List String :=
  ["compose.yaml", "compose.yml", "docker-compose.yaml", "docker-compose.yml"]

/-- Predicate describing the diff lines `detectStep` keeps, and the project
name it records for such a line: a non-blank path whose base filename is a
recognized manifest name, mapped to the base name of its parent directory. -/
def keepsFile (fileRaw n : String) : Prop :=
  trimString fileRaw ≠ "" ∧
  pathBase (trimString fileRaw) ∈ manifestNames ∧
  pathBase (pathDir (trimString fileRaw)) = n

/-! ## Duplicate tie-break -/

/-- Embeds `parseArcaneTime` (main.go lines 690-702).  `parseRFC3339`
abstracts the Go stdlib `time.Parse` chain (RFC3339Nano, then RFC3339) as a
map from strings to instants on an integer timeline; `none` stands for both
a parse failure and the zero `time.Time` (the only two observations the
caller makes are `IsZero` and `After`, and the zero time is minimal). -/
def parseArcaneTime (parseRFC3339 : String → Option Int) (value : String) : Option Int :=
  let v := trimString value
  if v = "" then none else parseRFC3339 v

/-- The per-candidate sort key (main.go lines 667-676): the parsed
`updatedAt`, falling back to `createdAt` when that is zero/unparsable. -/
def candidateTime (parseRFC3339 : String → Option Int) (p : ArcaneProject) : Option Int :=
  match parseArcaneTime parseRFC3339 p.updatedAt with
  | some t => some t
  | none => parseArcaneTime parseRFC3339 p.createdAt

/-- The replacement test of the selection loop (main.go line 677):
`!t.IsZero() && (bestTime.IsZero() || t.After(bestTime))` rewritten as a
strict order on `Option Int` with `none` (zero/unparsable) at the bottom. -/
def timeLt : Option Int → Option Int → Bool
  | _, none => false
  | none, some _ => true
  | some a, some b => decide (a < b)

/-- Embeds `selectPreferredProjectID` (main.go lines 657-688): fold over the
tail keeping the strictly-latest candidate, then return its ID, falling back
to the first candidate's ID when the chosen ID is empty. -/
def selectPreferredProjectID (parseRFC3339 : String → Option Int)
    (candidates : List ArcaneProject) : String :=
  match candidates with
  | [] => ""
  | [c] => c.id
  | c0 :: rest =>
    let best := rest.foldl
      (fun acc c =>
        if timeLt acc.2 (candidateTime parseRFC3339 c) then (c, candidateTime parseRFC3339 c)
        else acc)
      (c0, candidateTime parseRFC3339 c0)
    if best.1.id ≠ "" then best.1.id else c0.id

/-- Entry-level version of the selection fold (the pair fold in
`selectPreferredProjectID` always carries `candidateTime` of its first
component, so it is equivalent to this recursion; proved below). -/
def bestOf (parseRFC3339 : String → Option Int) (b : ArcaneProject) :
    List ArcaneProject → ArcaneProject
  | [] => b
  | c :: rest =>
    if timeLt (candidateTime parseRFC3339 b) (candidateTime parseRFC3339 c) then
      bestOf parseRFC3339 c rest
    else
      bestOf parseRFC3339 b rest

/-! ## Reconciliation Engine: classification -/

/-- The name-keyed index the engine builds over the remote inventory
(main.go lines 451-454): map from name to the entries carrying it, in
listing order. -/
def indexByName (projects : List ArcaneProject) (name : String) : List ArcaneProject :=
  projects.filter (fun p => p.name == name)

/-- One iteration of the classification loop (main.go lines 485-493). -/
def classifyStep (byName : String → List ArcaneProject) (changed : List String)
    (acc : List String × List String) (diskProject : String) : List String × List String :=
  if (byName diskProject).length = 0 then (acc.1 ++ [diskProject], acc.2)
  else if changed.contains diskProject then (acc.1, acc.2 ++ [diskProject])
  else acc

/-- Embeds the classification loop (main.go lines 484-493): returns
`(projectsToCreate, projectsToSync)`. -/
def classifyProjects (diskProjects : List String) (byName : String → List ArcaneProject)
    (changedProjects : List String) : List String × List String :=
  diskProjects.foldl (classifyStep byName changedProjects) ([], [])

/-- Embeds the engine's gating of the Change-Set Detector and the
classification (main.go lines 355-493): run the synchronizer, compute the
change-set only when it reported a change (lines 471-482), then classify. -/
def runReconcile (status : GitStatus) (o : GitOutcome) (oldCommit newCommit : String)
    (diffOutput : Option String) (diskProjects : List String)
    (byName : String → List ArcaneProject) : Option (List String × List String) :=
  match gitSync status o with
  | none => none
  | some (_, changesOccurred) =>
    let changedProjects :=
      if changesOccurred then detectChangedProjects oldCommit newCommit diffOutput else []
    some (classifyProjects diskProjects byName changedProjects)

/-- The remote inventory seen by a second run after a first run whose create
calls all succeeded and with no intervening remote change: every project the
first run classified as create now has exactly the one entry the create
returned (main.go lines 540, 562), everything else is unchanged. -/
def remoteAfterCreates (byName : String → List ArcaneProject) (created : List String)
    (idOf : String → String) : String → List ArcaneProject :=
  fun n => if created.contains n then [{ id := idOf n, name := n }] else byName n

/-! ## Remote Inventory Client -/

/-- The failure modes of `doRequest` (main.go lines 92-133). -/
inductive ReqError where
  | marshalFailed
  | buildFailed
  | transportFailed
  | readFailed
  /-- A response with status code `>= 400`, carrying status and raw body
  (main.go lines 128-130). -/
  | apiError (status : Nat) (body : String)
  /-- `CreateProject` failed to unmarshal the create response body
  (main.go lines 237-239). -/
  | decodeFailed
deriving DecidableEq

/-- Oracle for one `doRequest` call: whether body marshalling, request
construction and body reading succeed, and the transport result (`none` is a
network-level error from `HTTPClient.Do`, `some (status, body)` a received
response). -/
structure ReqOutcome where
  marshalOk : Bool
  buildOk : Bool
  transport : Option (Nat × String)
  readOk : Bool
deriving DecidableEq

/-- Embeds `doRequest` (main.go lines 92-133): any pre-response failure is an
error; a received response errors exactly when its status code is `>= 400`,
carrying the status and the raw body; otherwise the raw body is returned. -/
def doRequest (o : ReqOutcome) : Except ReqError String :=
  if o.marshalOk = false then .error .marshalFailed
  else if o.buildOk = false then .error .buildFailed
  else
    match o.transport with
    | none => .error .transportFailed
    | some (status, body) =>
      if o.readOk = false then .error .readFailed
      else if 400 ≤ status then .error (.apiError status body)
      else .ok body

/-- The payload of `ArcaneCreateResponse.Data` (main.go lines 66-72). -/
structure CreateRespData where
  id : String := ""
  name : String := ""
deriving DecidableEq

/-- Embeds `ArcaneCreateResponse` (main.go lines 66-72). -/
structure ArcaneCreateResponse where
  success : Bool := false
  data : CreateRespData := {}
deriving DecidableEq

/-- Embeds `CreateProject` (main.go lines 220-245) from the point the HTTP
request returns: propagate request errors, fail on an unparsable response
body (`decodeResp` abstracts `json.Unmarshal`), return the response's ID when
non-empty, and otherwise fall back to the project name as the ID. -/
def CreateProject (name : String) (reqResult : Except ReqError String)
    (decodeResp : String → Option ArcaneCreateResponse) : Except ReqError String :=
  match reqResult with
  | .error e => .error e
  | .ok respBody =>
    match decodeResp respBody with
    | none => .error .decodeFailed
    | some createResp =>
      if createResp.data.id ≠ "" then .ok createResp.data.id
      else .ok name

/-! ## Reconciliation Engine: per-project remote call traces -/

/-- The remote API calls the engine can issue for one project. -/
inductive ApiCall where
  | search (name : String)
  | create (name : String)
  | start (id : String)
  | redeploy (id : String)
  | update (id : String)
deriving DecidableEq

/-- Oracle for one iteration of the create loop (main.go lines 503-563):
whether a compose file was found and readable, the result of the
`FindProjectsByNameExact` guard, the result of `CreateProject` (the returned
project ID on success), and whether the start and fallback redeploy calls
succeed. -/
structure CreateOracle where
  composeFound : Bool
  readOk : Bool
  lookupResult : Except Unit (List ArcaneProject)
  createResult : Except Unit String
  startOk : Bool
  redeployOk : Bool

/-- The create-loop calls issued once the duplicate guard decided to proceed
(main.go lines 539-559): the create request, then on success a start of the
returned ID, then on start failure exactly one fallback redeploy of that same
ID; a redeploy failure is only logged. -/
def createCallsAfterLookup (projectName : String) (o : CreateOracle) : List ApiCall :=
  match o.createResult with
  | .error _ => [ApiCall.create projectName]
  | .ok projectID =>
    ApiCall.create projectName :: ApiCall.start projectID ::
      (if o.startOk then [] else [ApiCall.redeploy projectID])

/-- Embeds one iteration of the create loop (main.go lines 503-563) as the
list of remote calls it issues: skip silently without a readable compose file
(lines 506-516), issue the exact-name search guard (line 526), skip the
create when the guard finds existing entries (lines 529-537), and proceed
when the guard errs (line 527) or finds nothing. -/
def createProjectCalls (projectName : String) (o : CreateOracle) : List ApiCall :=
  if o.composeFound = false then []
  else if o.readOk = false then []
  else
    ApiCall.search projectName ::
      (match o.lookupResult with
       | .ok existing =>
         if 0 < existing.length then [] else createCallsAfterLookup projectName o
       | .error _ => createCallsAfterLookup projectName o)

/-- The whole create loop (main.go lines 501-564): per-project traces
concatenated; one project's failures never stop the remaining projects. -/
def createLoopCalls (names : List String) (oracles : String → CreateOracle) : List ApiCall :=
  match names with
  | [] => []
  | n :: rest => createProjectCalls n (oracles n) ++ createLoopCalls rest oracles

/-- Recognizer for redeploy calls (used to count fallback attempts). -/
def isRedeployCall : ApiCall → Bool
  | .redeploy _ => true
  | _ => false

/-- Oracle for one iteration of the sync loop (main.go lines 569-611). -/
structure SyncOracle where
  composeFound : Bool
  readOk : Bool
  updateOk : Bool
  redeployOk : Bool

/-- The ID resolution at the head of the sync loop (main.go lines 570-575):
the tie-break over the indexed candidates, or the project name itself when
the index has none. -/
def resolveProjectID (parseRFC3339 : String → Option Int)
    (byName : String → List ArcaneProject) (projectName : String) : String :=
  let candidates := byName projectName
  if 0 < candidates.length then selectPreferredProjectID parseRFC3339 candidates
  else projectName

/-- Embeds one iteration of the sync loop (main.go lines 569-611) as the list
of remote calls it issues: resolve the target ID, skip without a readable
compose file, then issue the update and the redeploy against that same ID.
An update failure is only logged (lines 600-602), so the redeploy is issued
regardless of the update's outcome — `updateOk` does not influence the
trace. -/
def syncProjectCalls (parseRFC3339 : String → Option Int)
    (byName : String → List ArcaneProject) (projectName : String)
    (o : SyncOracle) : List ApiCall :=
  let projectID := resolveProjectID parseRFC3339 byName projectName
  if o.composeFound = false then []
  else if o.readOk = false then []
  else [ApiCall.update projectID, ApiCall.redeploy projectID]

/-! ## Concrete inputs used by witnesses and counterexamples -/

/-- All git commands succeeding (shared concrete outcome). -/
def allOk : GitOutcome := ⟨true, true, true, true⟩

/-- Concrete create-loop oracle: compose readable, guard finds nothing,
create returns "np-1", start fails, fallback redeploy also fails. -/
def createDemoOracle : CreateOracle :=
  ⟨true, true, .ok [], .ok "np-1", false, false⟩

/-- Concrete decoder for the C10 witness: "resp" decodes to a successful
create response whose ID field is empty. -/
def demoDecode : String → Option ArcaneCreateResponse :=
  fun s => if s = "resp" then some { success := true, data := { id := "", name := "web" } }
    else none

/-- Remote inventory for the C1 witness: one entry named "b". -/
def demoRemote : List ArcaneProject := [{ id := "1", name := "b" }]

/-- Toy stand-in for the abstract RFC3339 parser on the concrete timestamps
used in witnesses: the two timestamps below parse to instants 1 < 2 (as the
real parser would order them), everything else is unparsable. -/
def demoParse : String → Option Int :=
  fun s =>
    if s = "2024-01-01T00:00:00Z" then some 1
    else if s = "2024-01-02T00:00:00Z" then some 2
    else none

/-- Duplicate entry with no parsable timestamp but a usable ID. -/
def dupNoTime : ArcaneProject := { id := "a" }

/-- Duplicate entry with the latest timestamp but an empty ID field. -/
def dupEmptyID : ArcaneProject := { id := "", updatedAt := "2024-01-02T00:00:00Z" }

/-- Duplicate entry with the older timestamp and a usable ID. -/
def dupOlder : ArcaneProject := { id := "old", updatedAt := "2024-01-01T00:00:00Z" }

/-- Duplicate entry with the newer timestamp and a usable ID. -/
def dupNewer : ArcaneProject := { id := "new", updatedAt := "2024-01-02T00:00:00Z" }

/-! # Theorems -/

/-! ## Git State Synchronizer (C2, C6) -/

/-- Closed-form behaviour of the synchronizer: whenever the local state is
not already in sync, the run is fatal unless both the branch fetch and the
hard reset to the remote tip succeed, and a successful run ends in the clean
in-sync state, marked changed exactly when the local state was behind. -/
theorem gitSync_run (a b : Nat) (d : Bool) (o : GitOutcome) :
    gitSync ⟨a, b, d⟩ o =
      if 0 < a ∨ 0 < b then
        (if o.fetchBranchOk = true ∧ o.resetOriginOk = true then
          some (⟨0, 0, false⟩, decide (0 < b))
        else none)
      else some (⟨a, b, d⟩, false) := by
  rcases o with ⟨f, r, rh, cl⟩
  unfold gitSync
  rcases Nat.eq_zero_or_pos a with ha | ha <;> rcases Nat.eq_zero_or_pos b with hb | hb <;>
    subst_vars <;> cases f <;> cases r <;> simp_all


/-- C2 counterexample: starting from an in-sync state (ahead 0, behind 0)
with a dirty working tree, the synchronizer takes no action, so after it
completes the dirty flag is still `true`, contradicting the claim that the
dirty flag is always false afterwards. -/
theorem gitSync_insync_dirty_counterexample :
    gitSync ⟨0, 0, true⟩ allOk = some (⟨0, 0, true⟩, false) ∧
    (⟨0, 0, true⟩ : GitStatus).hasLocalChange = true := by
  constructor <;> rfl

/-- C2 (amended): whenever the synchronizer completes without a fatal exit,
the ahead-count is 0; the dirty flag is false whenever the initial state was
ahead or behind, but an already-in-sync dirty working tree is left as-is. -/
theorem gitSync_convergence (st : GitStatus) (o : GitOutcome) (st' : GitStatus) (ch : Bool)
    (h : gitSync st o = some (st', ch)) :
    st'.ahead = 0 ∧ ((0 < st.ahead ∨ 0 < st.behind) → st'.hasLocalChange = false) := by
  rcases st with ⟨a, b, d⟩
  rw [gitSync_run] at h
  by_cases hab : 0 < a ∨ 0 < b
  · rw [if_pos hab] at h
    by_cases hfr : o.fetchBranchOk = true ∧ o.resetOriginOk = true
    · rw [if_pos hfr] at h
      simp only [Option.some.injEq, Prod.mk.injEq] at h
      rw [← h.1]
      exact ⟨rfl, fun _ => rfl⟩
    · rw [if_neg hfr] at h
      exact absurd h (by simp)
  · rw [if_neg hab] at h
    simp only [Option.some.injEq, Prod.mk.injEq] at h
    rw [← h.1]
    refine ⟨?_, fun hc => absurd hc hab⟩
    simp only [not_or, Nat.pos_iff_ne_zero, not_not] at hab
    exact hab.1

/-- C2 witness: the amended theorem applied to a diverged dirty state with
all git commands succeeding. -/
theorem gitSync_convergence_witness :
    (⟨0, 0, false⟩ : GitStatus).ahead = 0 ∧
      ((0 < (⟨2, 3, true⟩ : GitStatus).ahead ∨ 0 < (⟨2, 3, true⟩ : GitStatus).behind) →
        (⟨0, 0, false⟩ : GitStatus).hasLocalChange = false) :=
  gitSync_convergence ⟨2, 3, true⟩ allOk ⟨0, 0, false⟩ true (by rfl)

/-- C6 counterexample: in the behind-only dirty branch, a failing pre-clean
`reset --hard HEAD` (resetHeadOk := false) does NOT abort the run — the
synchronizer still completes successfully, contradicting the claim that
every hard-reset failure is fatal. -/
theorem preclean_reset_not_fatal :
    gitSync ⟨0, 1, true⟩ ⟨true, true, false, true⟩ = some (⟨0, 0, false⟩, true) ∧
    (⟨true, true, false, true⟩ : GitOutcome).resetHeadOk = false := by
  constructor <;> rfl

/-- C6 (amended): a run is fatal exactly when some corrective branch runs
(ahead or behind nonzero) and its branch fetch or its hard reset to the
remote tip fails; cleanup failures and the behind-only dirty pre-clean
reset-to-HEAD failure are only warnings. -/
theorem gitSync_fatal_iff (st : GitStatus) (o : GitOutcome) :
    gitSync st o = none ↔
      ((0 < st.ahead ∨ 0 < st.behind) ∧
        (o.fetchBranchOk = false ∨ o.resetOriginOk = false)) := by
  rcases st with ⟨a, b, d⟩
  rw [gitSync_run]
  by_cases hab : 0 < a ∨ 0 < b
  · rw [if_pos hab]
    by_cases hfr : o.fetchBranchOk = true ∧ o.resetOriginOk = true
    · rw [if_pos hfr]
      simp [hfr.1, hfr.2]
    · rw [if_neg hfr]
      simp only [not_and_or, Bool.not_eq_true] at hfr
      simp [hab, hfr]
  · rw [if_neg hab]
    simp [hab]

/-- C6 witness: the amended theorem applied to an ahead-only state whose
branch fetch fails. -/
theorem gitSync_fatal_iff_witness :
    gitSync ⟨1, 0, false⟩ ⟨false, true, true, true⟩ = none ↔
      ((0 < (⟨1, 0, false⟩ : GitStatus).ahead ∨ 0 < (⟨1, 0, false⟩ : GitStatus).behind) ∧
        ((⟨false, true, true, true⟩ : GitOutcome).fetchBranchOk = false ∨
          (⟨false, true, true, true⟩ : GitOutcome).resetOriginOk = false)) :=
  gitSync_fatal_iff ⟨1, 0, false⟩ ⟨false, true, true, true⟩

/-! ## Remote API client (C7, C10) -/

/-- C7 counterexample: a 302 response is not in the 2xx range, yet
`doRequest` treats it as success (the code only errors on status >= 400), so
"any non-2xx response is an error" is false. -/
theorem doRequest_3xx_ok :
    doRequest ⟨true, true, some (302, "moved"), true⟩ = .ok "moved" ∧
    ¬(200 ≤ 302 ∧ 302 < 300) := by
  exact ⟨rfl, by omega⟩

/-- C7 (amended): for a received, readable response, `doRequest` returns an
error carrying the status code and raw body exactly for status >= 400; in
particular every 2xx response is returned as success (as are 1xx/3xx). -/
theorem doRequest_status_errors (o : ReqOutcome) (status : Nat) (body : String)
    (hm : o.marshalOk = true) (hb : o.buildOk = true) (hr : o.readOk = true)
    (ht : o.transport = some (status, body)) :
    (400 ≤ status → doRequest o = .error (.apiError status body)) ∧
    (¬ 400 ≤ status → doRequest o = .ok body) := by
  unfold doRequest
  rw [hm, hb, ht, hr]
  simp only [Bool.true_eq_false, if_false]
  constructor
  · intro h4; rw [if_pos h4]
  · intro h4; rw [if_neg h4]

/-- C7 witness: the amended theorem applied to a 503 response. -/
theorem doRequest_status_errors_witness :
    (400 ≤ 503 → doRequest ⟨true, true, some (503, "boom"), true⟩ =
      .error (.apiError 503 "boom")) ∧
    (¬ 400 ≤ 503 → doRequest ⟨true, true, some (503, "boom"), true⟩ = .ok "boom") :=
  doRequest_status_errors ⟨true, true, some (503, "boom"), true⟩ 503 "boom" rfl rfl rfl rfl

/-! ## Per-project call traces (C8, C9, C10) -/

/-- C8: in the create path, when the compose file is readable, the duplicate
guard does not find the project, the create succeeds with ID `pid`, and the
start fails, the engine issues exactly the guard search, the create, the
start of `pid`, and ONE fallback redeploy of that same `pid` — nothing more
for this project even when the redeploy also fails — and the loop processes
the remaining projects independently afterwards. -/
theorem create_start_fallback (projectName : String) (o : CreateOracle) (pid : String)
    (hc : o.composeFound = true) (hr : o.readOk = true)
    (hl : ∀ l, o.lookupResult = .ok l → l = [])
    (hcr : o.createResult = .ok pid) (hs : o.startOk = false) :
    createProjectCalls projectName o =
      [ApiCall.search projectName, ApiCall.create projectName,
        ApiCall.start pid, ApiCall.redeploy pid] ∧
    (createProjectCalls projectName o).countP isRedeployCall = 1 ∧
    (∀ rest oracles, createLoopCalls (projectName :: rest) oracles =
      createProjectCalls projectName (oracles projectName) ++ createLoopCalls rest oracles) := by
  have htrace : createProjectCalls projectName o =
      [ApiCall.search projectName, ApiCall.create projectName,
        ApiCall.start pid, ApiCall.redeploy pid] := by
    unfold createProjectCalls createCallsAfterLookup
    rw [hc, hr, hcr, hs]
    cases hlk : o.lookupResult with
    | ok l =>
      have hnil := hl l hlk
      subst hnil
      simp
    | error e => simp
  refine ⟨htrace, ?_, fun rest oracles => rfl⟩
  rw [htrace]
  rfl


/-- C8 witness: the theorem applied to `createDemoOracle`. -/
theorem create_start_fallback_witness :
    createProjectCalls "newproj" createDemoOracle =
      [ApiCall.search "newproj", ApiCall.create "newproj",
        ApiCall.start "np-1", ApiCall.redeploy "np-1"] :=
  (create_start_fallback "newproj" createDemoOracle "np-1" rfl rfl
    (fun l hl => by injection hl with h; exact h.symm) rfl rfl).1

/-- C9: in the sync path, when the compose file is readable, the engine
issues the update and then the redeploy, both against the same resolved
project ID, and the trace does not depend on the update's outcome at all (a
failed update is only logged and never blocks the redeploy). -/
theorem sync_update_best_effort (parseRFC3339 : String → Option Int)
    (byName : String → List ArcaneProject) (projectName : String) (o : SyncOracle)
    (hc : o.composeFound = true) (hr : o.readOk = true) :
    syncProjectCalls parseRFC3339 byName projectName o =
      [ApiCall.update (resolveProjectID parseRFC3339 byName projectName),
        ApiCall.redeploy (resolveProjectID parseRFC3339 byName projectName)] ∧
    (∀ b, syncProjectCalls parseRFC3339 byName projectName { o with updateOk := b } =
      syncProjectCalls parseRFC3339 byName projectName o) := by
  constructor
  · unfold syncProjectCalls
    rw [hc, hr]
    simp
  · intro b
    unfold syncProjectCalls
    rfl

/-- C9 witness: the theorem applied to a concrete failed-update oracle. -/
theorem sync_update_best_effort_witness :
    syncProjectCalls (fun _ => none) (fun _ => []) "svc" ⟨true, true, false, true⟩ =
      [ApiCall.update (resolveProjectID (fun _ => none) (fun _ => []) "svc"),
        ApiCall.redeploy (resolveProjectID (fun _ => none) (fun _ => []) "svc")] :=
  (sync_update_best_effort (fun _ => none) (fun _ => []) "svc" ⟨true, true, false, true⟩
    rfl rfl).1

/-- C10: when the create request succeeds but the parsed create response
carries an empty ID, `CreateProject` returns the project's NAME in place of
a remote ID, and consequently the create path's subsequent start and (on
start failure) the single fallback redeploy both target that name. -/
theorem createProject_name_fallback (name body : String)
    (decodeResp : String → Option ArcaneCreateResponse) (r : ArcaneCreateResponse)
    (hd : decodeResp body = some r) (hid : r.data.id = "") :
    CreateProject name (.ok body) decodeResp = .ok name ∧
    (∀ o : CreateOracle, o.composeFound = true → o.readOk = true →
      (∀ l, o.lookupResult = .ok l → l = []) → o.createResult = .ok name →
      o.startOk = false →
      createProjectCalls name o =
        [ApiCall.search name, ApiCall.create name, ApiCall.start name,
          ApiCall.redeploy name]) := by
  constructor
  · unfold CreateProject
    simp [hd, hid]
  · intro o hc hr hl hcr hs
    unfold createProjectCalls createCallsAfterLookup
    rw [hc, hr, hcr, hs]
    cases hlk : o.lookupResult with
    | ok l =>
      have hnil := hl l hlk
      subst hnil
      simp
    | error e => simp


/-- C10 witness: the theorem applied to the concrete decoder. -/
theorem createProject_name_fallback_witness :
    CreateProject "web" (.ok "resp") demoDecode = .ok "web" :=
  (createProject_name_fallback "web" "resp" demoDecode
    { success := true, data := { id := "", name := "web" } } (by rfl) rfl).1

/-! ## Classification (C1) -/

/-- The create component of one classification step. -/
theorem classifyStep_fst (byName : String → List ArcaneProject) (changed : List String)
    (acc : List String × List String) (d : String) :
    (classifyStep byName changed acc d).1 =
      if (byName d).length = 0 then acc.1 ++ [d] else acc.1 := by
  unfold classifyStep
  by_cases h : (byName d).length = 0 <;> by_cases h2 : d ∈ changed <;> simp [h, h2]

/-- The sync component of one classification step. -/
theorem classifyStep_snd (byName : String → List ArcaneProject) (changed : List String)
    (acc : List String × List String) (d : String) :
    (classifyStep byName changed acc d).2 =
      if (byName d).length ≠ 0 ∧ d ∈ changed then acc.2 ++ [d] else acc.2 := by
  unfold classifyStep
  by_cases h : (byName d).length = 0 <;> by_cases h2 : d ∈ changed <;> simp [h, h2]

/-- Membership characterization of the classification fold: a name lands in
the create list iff it is a disk project with no remote entry, and in the
sync list iff it is a disk project with a remote entry that is in the
change-set. -/
theorem classify_foldl_mem (byName : String → List ArcaneProject) (changed : List String)
    (disk : List String) :
    ∀ (acc : List String × List String) (n : String),
      (n ∈ (disk.foldl (classifyStep byName changed) acc).1 ↔
        n ∈ acc.1 ∨ (n ∈ disk ∧ byName n = [])) ∧
      (n ∈ (disk.foldl (classifyStep byName changed) acc).2 ↔
        n ∈ acc.2 ∨ (n ∈ disk ∧ byName n ≠ [] ∧ n ∈ changed)) := by
  induction disk with
  | nil =>
    intro acc n
    simp
  | cons d rest ih =>
    intro acc n
    rw [List.foldl_cons]
    refine ⟨?_, ?_⟩
    · rw [(ih _ n).1, classifyStep_fst]
      by_cases hd0 : (byName d).length = 0
      · have hdnil : byName d = [] := List.length_eq_zero.mp hd0
        rw [if_pos hd0]
        by_cases hnd : n = d
        · subst hnd
          simp only [List.mem_append, List.mem_singleton, List.mem_cons]
          tauto
        · simp only [List.mem_append, List.mem_singleton, List.mem_cons]
          tauto
      · have hdne : byName d ≠ [] := fun hh => hd0 (by rw [hh]; rfl)
        rw [if_neg hd0]
        by_cases hnd : n = d
        · subst hnd
          simp only [List.mem_cons]
          tauto
        · simp only [List.mem_cons]
          tauto
    · rw [(ih _ n).2, classifyStep_snd]
      by_cases hd : (byName d).length ≠ 0 ∧ d ∈ changed
      · have hdne : byName d ≠ [] := fun hh => hd.1 (by rw [hh]; rfl)
        have hdc : d ∈ changed := hd.2
        rw [if_pos hd]
        by_cases hnd : n = d
        · subst hnd
          simp only [List.mem_append, List.mem_singleton, List.mem_cons]
          tauto
        · simp only [List.mem_append, List.mem_singleton, List.mem_cons]
          tauto
      · have hd2 : ¬(byName d ≠ [] ∧ d ∈ changed) :=
          fun hcon => hd ⟨fun hl => hcon.1 (List.length_eq_zero.mp hl), hcon.2⟩
        rw [if_neg hd]
        by_cases hnd : n = d
        · subst hnd
          simp only [List.mem_cons]
          tauto
        · simp only [List.mem_cons]
          tauto

/-- C1: per disk project name, the engine classifies: no remote entry with
that name means create; a remote entry plus membership in the change-set
means sync; a remote entry without change-set membership means no remote
operation (in neither list); and a name absent from disk (present only
remotely) is never acted on. -/
theorem classification_rule (remote : List ArcaneProject) (disk changed : List String)
    (n : String) :
    (n ∈ disk → indexByName remote n = [] →
      n ∈ (classifyProjects disk (indexByName remote) changed).1) ∧
    (n ∈ disk → indexByName remote n ≠ [] → n ∈ changed →
      n ∈ (classifyProjects disk (indexByName remote) changed).2) ∧
    (n ∈ disk → indexByName remote n ≠ [] → n ∉ changed →
      n ∉ (classifyProjects disk (indexByName remote) changed).1 ∧
      n ∉ (classifyProjects disk (indexByName remote) changed).2) ∧
    (n ∉ disk →
      n ∉ (classifyProjects disk (indexByName remote) changed).1 ∧
      n ∉ (classifyProjects disk (indexByName remote) changed).2) := by
  obtain ⟨h1, h2⟩ := classify_foldl_mem (indexByName remote) changed disk ([], []) n
  unfold classifyProjects
  simp only [List.not_mem_nil, false_or] at h1 h2
  refine ⟨fun hd hnil => h1.mpr ⟨hd, hnil⟩, fun hd hne hc => h2.mpr ⟨hd, hne, hc⟩,
    fun hd hne hc => ⟨?_, ?_⟩, fun hd => ⟨?_, ?_⟩⟩
  · exact fun hmem => hne (h1.mp hmem).2
  · exact fun hmem => hc (h2.mp hmem).2.2
  · exact fun hmem => hd (h1.mp hmem).1
  · exact fun hmem => hd (h2.mp hmem).1


/-- C1 witness: "a" is on disk with no remote entry, so it is classified as
create. -/
theorem classification_rule_witness :
    "a" ∈ (classifyProjects ["a", "b"] (indexByName demoRemote) ["b"]).1 :=
  (classification_rule demoRemote ["a", "b"] ["b"] "a").1 (by decide) (by decide)

/-! ## Idempotence (C5) -/

/-- With an empty change-set and every disk project present remotely, the
classification is empty in both components. -/
theorem classify_no_missing_no_changes (disk : List String)
    (byName2 : String → List ArcaneProject)
    (hpresent : ∀ n ∈ disk, byName2 n ≠ []) :
    classifyProjects disk byName2 [] = ([], []) := by
  unfold classifyProjects
  have h1 : (disk.foldl (classifyStep byName2 []) ([], [])).1 = [] := by
    rw [List.eq_nil_iff_forall_not_mem]
    intro n hn
    rcases (classify_foldl_mem byName2 [] disk ([], []) n).1.mp hn with h | ⟨hd, hnil⟩
    · exact List.not_mem_nil n h
    · exact hpresent n hd hnil
  have h2 : (disk.foldl (classifyStep byName2 []) ([], [])).2 = [] := by
    rw [List.eq_nil_iff_forall_not_mem]
    intro n hn
    rcases (classify_foldl_mem byName2 [] disk ([], []) n).2.mp hn with h | ⟨_, _, hc⟩
    · exact List.not_mem_nil n h
    · exact List.not_mem_nil n hc
  exact Prod.ext h1 h2

/-- C5: a second reconciliation run starting from an in-sync git state (no
git change since the first run) against the remote inventory left by a first
run whose creates all succeeded (no other remote change, no disk change)
classifies every disk project as no-op: its create and sync lists are both
empty, so zero create, update, or redeploy calls are issued. -/
theorem reconcile_idempotent (o : GitOutcome) (oldCommit newCommit : String)
    (diffOutput : Option String) (disk changed1 : List String)
    (byName : String → List ArcaneProject) (idOf : String → String) (d : Bool) :
    runReconcile ⟨0, 0, d⟩ o oldCommit newCommit diffOutput disk
      (remoteAfterCreates byName (classifyProjects disk byName changed1).1 idOf) =
      some ([], []) := by
  have hpresent : ∀ n ∈ disk,
      remoteAfterCreates byName (classifyProjects disk byName changed1).1 idOf n ≠ [] := by
    intro n hn
    unfold remoteAfterCreates
    by_cases hc : (classifyProjects disk byName changed1).1.contains n = true
    · rw [if_pos hc]
      simp
    · rw [if_neg hc]
      intro hnil
      have hmem : n ∈ (classifyProjects disk byName changed1).1 := by
        unfold classifyProjects
        exact (classify_foldl_mem byName changed1 disk ([], []) n).1.mpr (Or.inr ⟨hn, hnil⟩)
      exact hc (List.elem_iff.mpr hmem)
  unfold runReconcile
  rw [gitSync_run]
  simp only [lt_self_iff_false, or_self, if_false, Bool.false_eq_true]
  rw [classify_no_missing_no_changes disk _ hpresent]

/-- C5 witness: the theorem applied to a concrete second run. -/
theorem reconcile_idempotent_witness :
    runReconcile ⟨0, 0, true⟩ allOk "c2" "c2" none ["a", "b"]
      (remoteAfterCreates (indexByName demoRemote)
        (classifyProjects ["a", "b"] (indexByName demoRemote) []).1 (fun n => n)) =
      some ([], []) :=
  reconcile_idempotent allOk "c2" "c2" none ["a", "b"] [] (indexByName demoRemote)
    (fun n => n) true

/-! ## Change-Set Detector (C4) -/

/-- Membership after one step of the changed-file loop: the step adds
exactly the parent-directory base name of a kept manifest path. -/
theorem detectStep_mem (acc : List String) (fileRaw n : String) :
    n ∈ detectStep acc fileRaw ↔ n ∈ acc ∨ keepsFile fileRaw n := by
  unfold keepsFile
  simp only [detectStep]
  split
  next he =>
    simp [he]
  next he =>
    split
    next hm =>
      have hnotmem : pathBase (trimString fileRaw) ∉ manifestNames := by
        unfold manifestNames
        simp only [List.mem_cons, List.not_mem_nil, or_false]
        tauto
      tauto
    next hm =>
      have hmem : pathBase (trimString fileRaw) ∈ manifestNames := by
        unfold manifestNames
        simp only [List.mem_cons, List.not_mem_nil, or_false]
        tauto
      split
      next hc =>
        have hacc : pathBase (pathDir (trimString fileRaw)) ∈ acc := List.elem_iff.mp hc
        constructor
        · exact Or.inl
        · rintro (h | ⟨_, _, hp⟩)
          · exact h
          · rw [← hp]
            exact hacc
      next hc =>
        simp only [List.mem_append, List.mem_singleton]
        constructor
        · rintro (h | h)
          · exact Or.inl h
          · exact Or.inr ⟨he, hmem, h.symm⟩
        · rintro (h | ⟨_, _, hp⟩)
          · exact Or.inl h
          · exact Or.inr hp.symm

/-- Membership characterization of the changed-file fold. -/
theorem detect_foldl_mem (files : List String) :
    ∀ (acc : List String) (n : String),
      n ∈ files.foldl detectStep acc ↔ n ∈ acc ∨ ∃ f ∈ files, keepsFile f n := by
  induction files with
  | nil =>
    intro acc n
    simp
  | cons f rest ih =>
    intro acc n
    rw [List.foldl_cons, ih, detectStep_mem]
    constructor
    · rintro ((h | h) | ⟨g, hg, hk⟩)
      · exact Or.inl h
      · exact Or.inr ⟨f, List.mem_cons_self f rest, h⟩
      · exact Or.inr ⟨g, List.mem_cons_of_mem f hg, hk⟩
    · rintro (h | ⟨g, hg, hk⟩)
      · exact Or.inl (Or.inl h)
      · rcases List.mem_cons.mp hg with rfl | hg2
        · exact Or.inl (Or.inr hk)
        · exact Or.inr ⟨g, hg2, hk⟩

/-- C4: identical revisions give an empty change-set; otherwise the
change-set is exactly the set of parent-directory base names of diff lines
whose base filename is a recognized manifest filename (duplicates collapsed
by the first-seen insertion); in particular a diff touching
`a/compose.yaml` and `unrelated/readme.md` yields exactly `{a}`. -/
theorem detectChangedProjects_spec (oldCommit newCommit : String) (out : String)
    (n : String) :
    (oldCommit = newCommit → detectChangedProjects oldCommit newCommit (some out) = []) ∧
    (oldCommit ≠ newCommit →
      (n ∈ detectChangedProjects oldCommit newCommit (some out) ↔
        ∃ f ∈ diffLines out, keepsFile f n)) ∧
    (oldCommit ≠ newCommit →
      detectChangedProjects oldCommit newCommit
        (some "a/compose.yaml\nunrelated/readme.md") = ["a"]) := by
  refine ⟨?_, ?_, ?_⟩
  · intro h
    unfold detectChangedProjects
    rw [if_pos h]
  · intro h
    unfold detectChangedProjects
    rw [if_neg h, detect_foldl_mem (diffLines out) [] n]
    simp
  · intro h
    unfold detectChangedProjects
    rw [if_neg h]
    rfl

/-- C4 witness: the theorem's scenario conjunct at concrete revisions. -/
theorem detectChangedProjects_spec_witness :
    detectChangedProjects "c1" "c2" (some "a/compose.yaml\nunrelated/readme.md") = ["a"] :=
  (detectChangedProjects_spec "c1" "c2" "a/compose.yaml\nunrelated/readme.md" "a").2.2
    (by decide)

/-! ## Duplicate tie-break (C3) -/

/-- The selection order is irreflexive. -/
theorem timeLt_irrefl (a : Option Int) : timeLt a a = false := by
  cases a with
  | none => rfl
  | some x => simp [timeLt]

/-- The selection order is asymmetric. -/
theorem timeLt_asymm {a b : Option Int} (h : timeLt a b = true) : timeLt b a = false := by
  cases a <;> cases b <;> simp_all [timeLt] <;> omega

/-- From `a < b` and `¬(c < b)` conclude `a < c` (with `none` at the
bottom). -/
theorem timeLt_lt_of_nlt {a b c : Option Int} (h1 : timeLt a b = true)
    (h2 : timeLt c b = false) : timeLt a c = true := by
  cases a <;> cases b <;> cases c <;> simp_all [timeLt] <;> omega

/-- From `¬(a < b)` and `a < c` conclude `b < c` (with `none` at the
bottom). -/
theorem timeLt_nlt_lt {a b c : Option Int} (h1 : timeLt a b = false)
    (h2 : timeLt a c = true) : timeLt b c = true := by
  cases a <;> cases b <;> cases c <;> simp_all [timeLt] <;> omega

/-- The pair fold inside `selectPreferredProjectID` always carries the
candidate time of its first component, so it equals the entry-level
recursion `bestOf`. -/
theorem select_foldl_eq_bestOf (parse : String → Option Int) :
    ∀ (rest : List ArcaneProject) (b : ArcaneProject),
      rest.foldl
        (fun acc c =>
          if timeLt acc.2 (candidateTime parse c) then (c, candidateTime parse c) else acc)
        (b, candidateTime parse b) =
      (bestOf parse b rest, candidateTime parse (bestOf parse b rest)) := by
  intro rest
  induction rest with
  | nil =>
    intro b
    rfl
  | cons c rs ih =>
    intro b
    rw [List.foldl_cons]
    simp only [bestOf]
    by_cases h : timeLt (candidateTime parse b) (candidateTime parse c) = true
    · rw [if_pos h, if_pos h]
      exact ih c
    · rw [if_neg h, if_neg h]
      exact ih b

/-- The returned ID is the best entry's ID, with the first candidate's ID as
fallback when the best entry's ID is empty (this also covers the
singleton-candidate early return). -/
theorem selectPreferred_eq (parse : String → Option Int) (c0 : ArcaneProject)
    (rest : List ArcaneProject) :
    selectPreferredProjectID parse (c0 :: rest) =
      (if (bestOf parse c0 rest).id ≠ "" then (bestOf parse c0 rest).id else c0.id) := by
  cases rest with
  | nil =>
    simp only [selectPreferredProjectID, bestOf]
    rw [ite_self]
  | cons c1 rs =>
    simp only [selectPreferredProjectID]
    rw [select_foldl_eq_bestOf parse (c1 :: rs) c0]

/-- `bestOf` is the first entry of the list attaining the maximal candidate
time: nothing is strictly later than it, and it is the first entry not
strictly below it. -/
theorem bestOf_first_max (parse : String → Option Int) :
    ∀ (rest : List ArcaneProject) (b : ArcaneProject),
      (List.find?
          (fun x =>
            !(timeLt (candidateTime parse x) (candidateTime parse (bestOf parse b rest))))
          (b :: rest) = some (bestOf parse b rest)) ∧
      (∀ x ∈ b :: rest,
        timeLt (candidateTime parse (bestOf parse b rest)) (candidateTime parse x) = false) := by
  intro rest
  induction rest with
  | nil =>
    intro b
    simp only [bestOf]
    constructor
    · rw [List.find?_cons_of_pos _ (by simp [timeLt_irrefl])]
    · intro x hx
      rcases List.mem_singleton.mp hx with rfl
      exact timeLt_irrefl _
  | cons c rs ih =>
    intro b
    by_cases h : timeLt (candidateTime parse b) (candidateTime parse c) = true
    · have hbest : bestOf parse b (c :: rs) = bestOf parse c rs := by
        simp only [bestOf]
        rw [if_pos h]
      obtain ⟨ihf, ihall⟩ := ih c
      have hrc : timeLt (candidateTime parse (bestOf parse c rs)) (candidateTime parse c)
          = false := ihall c (List.mem_cons_self c rs)
      have hbr : timeLt (candidateTime parse b) (candidateTime parse (bestOf parse c rs))
          = true := timeLt_lt_of_nlt h hrc
      constructor
      · rw [hbest, List.find?_cons_of_neg _ (by simp [hbr])]
        exact ihf
      · intro x hx
        rw [hbest]
        rcases List.mem_cons.mp hx with rfl | hx2
        · exact timeLt_asymm hbr
        · exact ihall x hx2
    · have hb : timeLt (candidateTime parse b) (candidateTime parse c) = false :=
        Bool.eq_false_iff.mpr h
      have hbest : bestOf parse b (c :: rs) = bestOf parse b rs := by
        simp only [bestOf]
        rw [if_neg h]
      obtain ⟨ihf, ihall⟩ := ih b
      have hrb : timeLt (candidateTime parse (bestOf parse b rs)) (candidateTime parse b)
          = false := ihall b (List.mem_cons_self b rs)
      have hrc : timeLt (candidateTime parse (bestOf parse b rs)) (candidateTime parse c)
          = false := by
        cases hc : timeLt (candidateTime parse (bestOf parse b rs)) (candidateTime parse c) with
        | false => rfl
        | true =>
          exfalso
          have h2 : timeLt (candidateTime parse (bestOf parse b rs)) (candidateTime parse b)
              = true := timeLt_lt_of_nlt hc hb
          rw [h2] at hrb
          exact Bool.noConfusion hrb
      constructor
      · rw [hbest]
        cases hpb : timeLt (candidateTime parse b) (candidateTime parse (bestOf parse b rs)) with
        | false =>
          have hfb : (b :: rs).find?
              (fun x =>
                !(timeLt (candidateTime parse x) (candidateTime parse (bestOf parse b rs))))
              = some b := by
            rw [List.find?_cons_of_pos _ (by simp [hpb])]
          have hrbb : bestOf parse b rs = b := by
            have h3 := ihf
            rw [hfb] at h3
            exact (Option.some.inj h3).symm
          rw [hrbb]
          rw [List.find?_cons_of_pos _ (by simp [timeLt_irrefl])]
        | true =>
          rw [List.find?_cons_of_neg _ (by simp [hpb])]
          have hcr : timeLt (candidateTime parse c) (candidateTime parse (bestOf parse b rs))
              = true := timeLt_nlt_lt hb hpb
          rw [List.find?_cons_of_neg _ (by simp [hcr])]
          rw [List.find?_cons_of_neg _ (by simp [hpb])] at ihf
          exact ihf
      · intro x hx
        rw [hbest]
        rcases List.mem_cons.mp hx with rfl | hx2
        · exact hrb
        · rcases List.mem_cons.mp hx2 with rfl | hx3
          · exact hrc
          · exact ihall x (List.mem_cons_of_mem b hx3)

/-- C3 counterexample: with a first duplicate carrying no parsable timestamp
(ID "a") and a second duplicate carrying the only parsable timestamp but an
empty ID field, the selection returns "a": the entry with no parsable
timestamp IS preferred (its ID is returned) over the entry with a parsable
timestamp, via the empty-ID fallback to the first candidate's ID. -/
theorem selectPreferred_emptyID_counterexample :
    selectPreferredProjectID demoParse [dupNoTime, dupEmptyID] = "a" ∧
    candidateTime demoParse dupNoTime = none ∧
    candidateTime demoParse dupEmptyID = some 2 ∧
    dupEmptyID.id = "" ∧ dupNoTime.id = "a" := by
  refine ⟨rfl, rfl, rfl, rfl, rfl⟩

/-- C3 (amended): for every parser and non-empty candidate list, the
selection is determined by the first entry attaining the maximal candidate
time (most recent parsable `updatedAt`, else `createdAt`; unparsable at the
bottom; earlier entries win ties): no candidate is strictly later than that
entry, it is the first candidate not strictly below itself, and the returned
ID is that entry's ID — except that when that entry's ID is empty the first
candidate's ID is returned instead. -/
theorem selectPreferred_first_most_recent (parse : String → Option Int)
    (c0 : ArcaneProject) (rest : List ArcaneProject) :
    (List.find?
        (fun x =>
          !(timeLt (candidateTime parse x) (candidateTime parse (bestOf parse c0 rest))))
        (c0 :: rest) = some (bestOf parse c0 rest)) ∧
    (∀ x ∈ c0 :: rest,
      timeLt (candidateTime parse (bestOf parse c0 rest)) (candidateTime parse x) = false) ∧
    selectPreferredProjectID parse (c0 :: rest) =
      (if (bestOf parse c0 rest).id ≠ "" then (bestOf parse c0 rest).id else c0.id) := by
  obtain ⟨h1, h2⟩ := bestOf_first_max parse rest c0
  exact ⟨h1, h2, selectPreferred_eq parse c0 rest⟩

/-- C3 witness: the theorem applied to two concrete timestamped duplicates
(the newer one listed first). -/
theorem selectPreferred_first_most_recent_witness :
    selectPreferredProjectID demoParse [dupNewer, dupOlder] =
      (if (bestOf demoParse dupNewer [dupOlder]).id ≠ ""
        then (bestOf demoParse dupNewer [dupOlder]).id else dupNewer.id) :=
  (selectPreferred_first_most_recent demoParse dupNewer [dupOlder]).2.2
